import Mathlib

/-!
# Admin panel script (`static/js/admin.js`): CSV export, export dispatch,
chart refresh, table search and debounce

A shallow embedding of the script's logic.  JavaScript strings are `String`,
objects are association lists in key-iteration order, the DOM and the
notification area are explicit state, and built-ins of the host
(`Array.prototype.join`, `String.prototype.includes`, `setTimeout`, ...) are
written out as the functions they compute.
-/

namespace AdminJS

/-! ## Values, records and host built-ins -/

/-- A Number, given by what `Number::toString` reads off it: not-a-number, an
infinity, a zero, or the sign, the decimal digits `s` (as few as determine the
number, `s ≥ 1`) and the exponent `n` with value `s × 10 ^ (n - k)`, `k` the
number of digits of `s`.  So 1.5 is `finite false 15 1`, 2 ^ 63 is
`finite false 9223372036854776 19` and 1e21 is `finite false 1 22`. -/
inductive JSNumber where
  | nan
  | infinity (negative : Bool)
  | zero
  | finite (negative : Bool) (s : Nat) (n : Int)
  deriving DecidableEq, Repr

/-- The properties a record inherits from `Object.prototype`. -/
inductive Inherited where
  | objectConstructor
  | defineGetter
  | defineSetter
  | hasOwnProperty
  | lookupGetter
  | lookupSetter
  | isPrototypeOf
  | propertyIsEnumerable
  | toStringMethod
  | valueOf
  | proto
  | toLocaleString
  deriving DecidableEq, Repr

/-- A value that can be read from a record field.  `undefined` is what a
property read yields when no property is found; `native` is the function or
object found on `Object.prototype`. -/
inductive Value where
  | undefined
  | null
  | str (s : String)
  | num (n : JSNumber)
  | native (p : Inherited)
  deriving DecidableEq, Repr

/-- An object with scalar fields, as the list of its own properties in
key-iteration order. -/
abbrev Record := List (String × Value)

/-- The expression `Object.keys(row)`. -/
def keys (row : Record) : List String := row.map Prod.fst

/-- The property name under which an inherited value is found. -/
def Inherited.name : Inherited → String
  | Inherited.objectConstructor => "constructor"
  | Inherited.defineGetter => "__defineGetter__"
  | Inherited.defineSetter => "__defineSetter__"
  | Inherited.hasOwnProperty => "hasOwnProperty"
  | Inherited.lookupGetter => "__lookupGetter__"
  | Inherited.lookupSetter => "__lookupSetter__"
  | Inherited.isPrototypeOf => "isPrototypeOf"
  | Inherited.propertyIsEnumerable => "propertyIsEnumerable"
  | Inherited.toStringMethod => "toString"
  | Inherited.valueOf => "valueOf"
  | Inherited.proto => "__proto__"
  | Inherited.toLocaleString => "toLocaleString"

/-- The text `ToString` gives for an inherited value: the source text of a
built-in function, or that of the prototype object. -/
def Inherited.text : Inherited → String
  | Inherited.objectConstructor => "function Object() \x7b [native code] \x7d"
  | Inherited.defineGetter => "function __defineGetter__() \x7b [native code] \x7d"
  | Inherited.defineSetter => "function __defineSetter__() \x7b [native code] \x7d"
  | Inherited.hasOwnProperty => "function hasOwnProperty() \x7b [native code] \x7d"
  | Inherited.lookupGetter => "function __lookupGetter__() \x7b [native code] \x7d"
  | Inherited.lookupSetter => "function __lookupSetter__() \x7b [native code] \x7d"
  | Inherited.isPrototypeOf => "function isPrototypeOf() \x7b [native code] \x7d"
  | Inherited.propertyIsEnumerable => "function propertyIsEnumerable() \x7b [native code] \x7d"
  | Inherited.toStringMethod => "function toString() \x7b [native code] \x7d"
  | Inherited.valueOf => "function valueOf() \x7b [native code] \x7d"
  | Inherited.proto => "[object Object]"
  | Inherited.toLocaleString => "function toLocaleString() \x7b [native code] \x7d"

/-- All inherited properties. -/
def Inherited.all : List Inherited :=
  [Inherited.objectConstructor, Inherited.defineGetter, Inherited.defineSetter,
   Inherited.hasOwnProperty, Inherited.lookupGetter, Inherited.lookupSetter,
   Inherited.isPrototypeOf, Inherited.propertyIsEnumerable, Inherited.toStringMethod,
   Inherited.valueOf, Inherited.proto, Inherited.toLocaleString]

/-- The property of `Object.prototype` with the given name, if there is one. -/
def inheritedProp (header : String) : Option Inherited :=
  Inherited.all.find? (fun p => p.name = header)

/-- The expression `row[header]`: the record's own property of that name, else
the one inherited from `Object.prototype`, else `undefined`. -/
def getProp (row : Record) (header : String) : Value :=
  match row.lookup header with
  | some v => v
  | none =>
    match inheritedProp header with
    | some p => Value.native p
    | none => Value.undefined

/-- The test `typeof value === 'string'`. -/
def isString : Value → Bool
  | Value.str _ => true
  | _ => false

/-- The method `String.prototype.includes`: `sub` occurs in `s` as a contiguous
run. -/
def includes (s sub : String) : Bool := decide (sub.data <:+: s.data)

/-- The call `value.replace(/"/g, '""')`: every double quote is replaced by
two. -/
def replaceQuotes (s : String) : String :=
  ⟨s.data.flatMap (fun c => if c = '"' then ['"', '"'] else [c])⟩

/-- The digits and exponent part of `Number::toString` (radix 10) for the
positive number with digits `s` and exponent `n`. -/
def finiteToChars (s : Nat) (n : Int) : List Char :=
  let digits := Nat.toDigits 10 s
  let k : Int := digits.length
  if k ≤ n ∧ n ≤ 21 then
    digits ++ List.replicate (n - k).toNat '0'
  else if 0 < n ∧ n ≤ 21 then
    digits.take n.toNat ++ '.' :: digits.drop n.toNat
  else if -6 < n ∧ n ≤ 0 then
    '0' :: '.' :: (List.replicate (-n).toNat '0' ++ digits)
  else
    let e := n - 1
    let sign := if e < 0 then '-' else '+'
    let exponent := Nat.toDigits 10 e.natAbs
    if k = 1 then
      digits ++ 'e' :: sign :: exponent
    else
      digits.take 1 ++ '.' :: (digits.drop 1 ++ 'e' :: sign :: exponent)

/-- The string form of a number: `Number::toString` with radix 10. -/
def numberToString : JSNumber → String
  | JSNumber.nan => "NaN"
  | JSNumber.infinity false => "Infinity"
  | JSNumber.infinity true => "-Infinity"
  | JSNumber.zero => "0"
  | JSNumber.finite false s n => ⟨finiteToChars s n⟩
  | JSNumber.finite true s n => ⟨'-' :: finiteToChars s n⟩

/-- The string `Array.prototype.join` uses for one element: `undefined` and
`null` give the empty string, everything else its `ToString`. -/
def elementToString : Value → String
  | Value.undefined => ""
  | Value.null => ""
  | Value.str s => s
  | Value.num n => numberToString n
  | Value.native p => p.text

/-- The loop of `Array.prototype.join`: `k` is the index of the next element,
`r` the text built so far; the separator goes in front of every element but
the first. -/
def joinLoop (sep : String) : List String → Nat → String → String
  | [], _, r => r
  | x :: xs, k, r => joinLoop sep xs (k + 1) ((if k > 0 then r ++ sep else r) ++ x)

/-- The method `Array.prototype.join` on an array of strings. -/
def join (sep : String) (xs : List String) : String := joinLoop sep xs 0 ""

/-- The method `Array.prototype.join` on an array of scalars. -/
def joinValues (sep : String) (vs : List Value) : String :=
  join sep (vs.map elementToString)

/-! ## `convertToCSV` -/

/-- What can be passed as the `data` argument: nothing, `null`, an array of
records, or a single object that is not an array. -/
inductive Data where
  | undefined
  | null
  | array (rows : List Record)
  | object (r : Record)
  deriving DecidableEq, Repr

/-- The body of the inner `headers.map` callback of `convertToCSV`: a string
holding a comma, a double quote or a newline is wrapped in quotes with its
quotes doubled; any other value is returned as it is. -/
def escapeValue (value : Value) : Value :=
  match value with
  | Value.str s =>
    if includes s "," || includes s "\"" || includes s "\n" then
      Value.str ("\"" ++ replaceQuotes s ++ "\"")
    else Value.str s
  | v => v

/-- The outer `data.map` callback of `convertToCSV`: one line of a record. -/
def csvRow (headers : List String) (row : Record) : String :=
  joinValues "," (headers.map (fun header => escapeValue (getProp row header)))

/-- The function `convertToCSV`. -/
def convertToCSV (data : Data) : String :=
  match data with
  | Data.array (first :: rest) =>
    let headers := keys first
    let csvHeaders := join "," headers
    let csvRows := (first :: rest).map (csvRow headers)
    csvHeaders ++ "\n" ++ join "\n" csvRows
  | _ => ""

/-! ## Notifications, downloads and `exportData` -/

/-- One call of `showNotification(message, type)`. -/
structure Notification where
  message : String
  type : String
  deriving DecidableEq, Repr

/-- One call of `downloadFile(content, filename, mimeType)`. -/
structure Download where
  content : String
  filename : String
  mimeType : String
  deriving DecidableEq, Repr

/-- The observable effects of the page: the notifications shown, the files
downloaded and the lines written by `console.error`, oldest first. -/
structure Effects where
  notifications : List Notification := []
  downloads : List Download := []
  consoleErrors : List String := []
  deriving DecidableEq, Repr

/-- The function `showNotification`, as the record of its call. -/
def showNotification (message type : String) (e : Effects) : Effects :=
  { e with notifications := e.notifications ++ [⟨message, type⟩] }

/-- The function `downloadFile`, as the record of its call. -/
def downloadFile (content filename mimeType : String) (e : Effects) : Effects :=
  { e with downloads := e.downloads ++ [⟨content, filename, mimeType⟩] }

/-- The test `!data`: `undefined` and `null` are falsy, every array (the empty
one too) and every object is truthy. -/
def Data.falsy : Data → Bool
  | Data.undefined => true
  | Data.null => true
  | Data.array _ => false
  | Data.object _ => false

/-- The function `exportToCSV`. -/
def exportToCSV (data : Data) (filename : String) (e : Effects) : Effects :=
  let csvContent := convertToCSV data
  downloadFile csvContent filename "text/csv;charset=utf-8;" e

/-- The function `exportToJSON`; `stringify` is `JSON.stringify(·, null, 2)`. -/
def exportToJSON (stringify : Data → String) (data : Data) (filename : String)
    (e : Effects) : Effects :=
  let jsonContent := stringify data
  downloadFile jsonContent filename "application/json;charset=utf-8;" e

/-- The file name built by `exportData`; `today` is
`new Date().toISOString().split('T')[0]`. -/
def exportFilename (today type : String) : String :=
  "telegram_bot_data_" ++ today ++ "." ++ type

/-- The function `exportData(type = 'csv', data = null)`.  An omitted argument
is `none` and takes its default. -/
def exportData (stringify : Data → String) (today : String)
    (typeArg : Option String) (dataArg : Option Data) (e : Effects) : Effects :=
  let type := typeArg.getD "csv"
  let data := dataArg.getD Data.null
  if data.falsy then
    showNotification "هیچ داده‌ای برای صادرات وجود ندارد" "warning" e
  else
    let filename := exportFilename today type
    let e1 :=
      if type = "csv" then exportToCSV data filename e
      else if type = "json" then exportToJSON stringify data filename e
      else e
    showNotification ("داده‌ها در فایل " ++ filename ++ " صادر شد") "success" e1


/-! ## Charts, `fetchData` and `refreshCharts` -/

/-- The JSON object of the `users_by_level` and `progress_by_section` end
points: names with counts, in key order. -/
abbrev Mapping := List (String × Int)

/-- The call `Object.values(newData)`. -/
def objectValues (newData : Mapping) : List Int := newData.map Prod.snd

/-- The JSON object of the `daily_activity` end point: two optional arrays of
`[label, value]` pairs. -/
structure ActivityData where
  daily_users : Option (List (String × Int))
  daily_progress : Option (List (String × Int))
  deriving DecidableEq, Repr

/-- One entry of `chart.data.datasets`. -/
structure Series where
  data : List Int
  deriving DecidableEq, Repr

/-- The object `chart.data`. -/
structure ChartData where
  labels : List String
  datasets : Option (List Series)
  deriving DecidableEq, Repr

/-- A chart handle; `updateCalls` lists the arguments of its `update` calls. -/
structure Chart where
  data : Option ChartData
  updateCalls : List String := []
  deriving DecidableEq, Repr

/-- The global `charts` registry, read at the three names the script uses. -/
structure Charts where
  usersByLevel : Option Chart
  progress : Option Chart
  dailyActivity : Option Chart
  deriving DecidableEq, Repr

/-- How one `fetch(url)` ends: the promise rejects, or it resolves to a
response with its `ok` flag and a body that `response.json()` parses (`some`)
or rejects (`none`). -/
inductive FetchOutcome (α : Type) where
  | rejected
  | response (ok : Bool) (body : Option α)
  deriving DecidableEq, Repr

/-- The outcomes of the three chart requests of one refresh. -/
structure Network where
  users_by_level : FetchOutcome Mapping
  progress_by_section : FetchOutcome Mapping
  daily_activity : FetchOutcome ActivityData
  deriving DecidableEq, Repr

/-- The call `console.error(label, error)`, as the record of its label. -/
def consoleError (label : String) (e : Effects) : Effects :=
  { e with consoleErrors := e.consoleErrors ++ [label] }

/-- The function `fetchData`: every failure is caught inside it, logged and
turned into `null`. -/
def fetchData {α : Type} (outcome : FetchOutcome α) (e : Effects) : Option α × Effects :=
  match outcome with
  | FetchOutcome.rejected => (none, consoleError "Fetch error:" e)
  | FetchOutcome.response false _ => (none, consoleError "Fetch error:" e)
  | FetchOutcome.response true none => (none, consoleError "Fetch error:" e)
  | FetchOutcome.response true (some body) => (some body, e)

/-- The function `updateChartData`. -/
def updateChartData (chart : Chart) (newData : Mapping) : Chart :=
  match chart.data with
  | some d =>
    match d.datasets with
    | some (first :: rest) =>
      { data := some { d with datasets := some ({ first with data := objectValues newData } :: rest) },
        updateCalls := chart.updateCalls ++ ["none"] }
    | _ => chart
  | none => chart

/-- The function `updateDailyActivityChart`.  The second component is `true`
when a property access on `undefined` throws; the assignments made before the
throw stay. -/
def updateDailyActivityChart (charts : Charts) (data : Option ActivityData) : Charts × Bool :=
  match charts.dailyActivity, data with
  | some chart, some data =>
    let dailyUsers := data.daily_users.getD []
    let dailyProgress := data.daily_progress.getD []
    match chart.data with
    | none => (charts, true)
    | some d =>
      let d1 := { d with labels := dailyUsers.map Prod.fst }
      match d1.datasets with
      | none => ({ charts with dailyActivity := some { chart with data := some d1 } }, true)
      | some [] => ({ charts with dailyActivity := some { chart with data := some d1 } }, true)
      | some [s0] =>
        let d2 := { d1 with datasets := some [{ s0 with data := dailyUsers.map Prod.snd }] }
        ({ charts with dailyActivity := some { chart with data := some d2 } }, true)
      | some (s0 :: s1 :: rest) =>
        let d3 := { d1 with datasets := some ({ s0 with data := dailyUsers.map Prod.snd } ::
          { s1 with data := dailyProgress.map Prod.snd } :: rest) }
        let chart1 := { chart with data := some d3, updateCalls := chart.updateCalls ++ ["none"] }
        ({ charts with dailyActivity := some chart1 }, false)
  | _, _ => (charts, false)

/-- The registry and the effects of the page. -/
structure Page where
  charts : Charts
  effects : Effects := {}
  deriving DecidableEq, Repr

/-- The function `refreshCharts`, one run with the three requests ending as
`net` says. -/
def refreshCharts (net : Network) (page : Page) : Page :=
  let (usersData, e1) := fetchData net.users_by_level page.effects
  let charts1 :=
    match page.charts.usersByLevel, usersData with
    | some chart, some usersData =>
      { page.charts with usersByLevel := some (updateChartData chart usersData) }
    | _, _ => page.charts
  let (progressData, e2) := fetchData net.progress_by_section e1
  let charts2 :=
    match charts1.progress, progressData with
    | some chart, some progressData =>
      { charts1 with progress := some (updateChartData chart progressData) }
    | _, _ => charts1
  let (activityData, e3) := fetchData net.daily_activity e2
  let (charts3, threw) :=
    match charts2.dailyActivity, activityData with
    | some _, some activityData => updateDailyActivityChart charts2 (some activityData)
    | _, _ => (charts2, false)
  if threw then
    { charts := charts3,
      effects := showNotification "خطا در به‌روزرسانی داده‌ها" "error"
        (consoleError "Error refreshing charts:" e3) }
  else
    { charts := charts3, effects := showNotification "داده‌ها به‌روزرسانی شد" "success" e3 }

/-! ## Table search -/

/-- A table row: its text, its `style.display` and its class list. -/
structure Row where
  textContent : String
  display : String := ""
  classList : List String := []
  deriving DecidableEq, Repr

/-- The element `#results-count`. -/
structure CountElement where
  textContent : String
  display : String
  deriving DecidableEq, Repr

/-- The call `classList.add(cls)`. -/
def classListAdd (cls : String) (l : List String) : List String :=
  if cls ∈ l then l else l ++ [cls]

/-- The call `classList.remove(cls)`. -/
def classListRemove (cls : String) (l : List String) : List String :=
  l.filter (fun c => c ≠ cls)

/-- The body of the `rows.forEach` callback of `handleSearch`; `toLowerCase` is
the host's `String.prototype.toLowerCase`. -/
def searchRow (toLowerCase : String → String) (searchTerm : String) (row : Row) : Row :=
  let text := toLowerCase row.textContent
  let shouldShow := includes text searchTerm
  let row1 := { row with display := if shouldShow then "" else "none" }
  if shouldShow && searchTerm ≠ "" then
    { row1 with classList := classListAdd "table-warning" row1.classList }
  else
    { row1 with classList := classListRemove "table-warning" row1.classList }

/-- The function `updateResultsCount`. -/
def updateResultsCount (rows : List Row) (searchTerm : String)
    (countElement : Option CountElement) : Option CountElement :=
  let visibleRows := rows.filter (fun row => row.display ≠ "none")
  match countElement with
  | some el =>
    if searchTerm ≠ "" then
      some { textContent := "نمایش " ++ toString visibleRows.length ++ " از " ++
               toString rows.length ++ " نتیجه",
             display := "block" }
    else
      some { el with display := "none" }
  | none => none

/-- The rows selected by the search input's target and the counter element. -/
structure SearchPage where
  rows : List Row
  countElement : Option CountElement
  deriving DecidableEq, Repr

/-- The function `handleSearch`; `value` is `event.target.value`. -/
def handleSearch (toLowerCase : String → String) (value : String) (page : SearchPage) :
    SearchPage :=
  let searchTerm := toLowerCase value
  let rows := page.rows.map (searchRow toLowerCase searchTerm)
  { rows := rows, countElement := updateResultsCount rows searchTerm page.countElement }

/-- The ASCII part of `String.prototype.toLowerCase`. -/
def asciiLower (s : String) : String := ⟨s.data.map Char.toLower⟩

/-! ## `debounce` -/

/-- A pending timer of the host, made by `setTimeout(later, wait)`: its id, the
instant it is due, and the arguments captured by its `later` closure. -/
structure Timer (α : Type) where
  id : Nat
  due : Nat
  args : α
  deriving DecidableEq, Repr

/-- One wrapper returned by `debounce(func, wait)` together with the host's
clock and timer table.  `timeout` is the closure variable of that name;
`fired` lists the calls of `func` so far, each with its instant and
arguments, oldest first. -/
structure Debounced (α : Type) where
  now : Nat := 0
  nextId : Nat := 1
  timers : List (Timer α) := []
  timeout : Option Nat := none
  fired : List (Nat × α) := []
  deriving DecidableEq, Repr

/-- The call `clearTimeout(timeout)`: drops the timer of that id if it is
still pending; `undefined` and stale ids do nothing. -/
def clearTimeout {α : Type} (timeout : Option Nat) (timers : List (Timer α)) :
    List (Timer α) :=
  match timeout with
  | none => timers
  | some i => timers.filter (fun tm => tm.id ≠ i)

/-- The delay `setTimeout` keeps for a `wait` of whole milliseconds: the value
is converted to a signed 32-bit integer, and a negative result counts as 0. -/
def timerDelay (wait : Nat) : Nat :=
  let w := wait % 4294967296
  if w < 2147483648 then w else 0

/-- The function `executedFunction(...args)`: clears the pending timer and
sets a new one, due after the delay `setTimeout` keeps for `wait`. -/
def executedFunction {α : Type} (wait : Nat) (args : α) (s : Debounced α) : Debounced α :=
  let timers1 := clearTimeout s.timeout s.timers
  let id := s.nextId
  { s with
    timers := timers1 ++ [{ id := id, due := s.now + timerDelay wait, args := args }],
    nextId := id + 1,
    timeout := some id }

/-- The closure `later` of the timer `tm`, run by the host at the instant the
timer is due: the timer leaves the table, `clearTimeout(timeout)` runs, then
`func(...args)`. -/
def later {α : Type} (tm : Timer α) (s : Debounced α) : Debounced α :=
  let timers1 := s.timers.filter (fun x => x.id ≠ tm.id)
  { s with
    now := tm.due,
    timers := clearTimeout s.timeout timers1,
    fired := s.fired ++ [(tm.due, tm.args)] }

/-- The pending timer the host runs first: the least due instant, the older
timer on a tie. -/
def earliest {α : Type} : List (Timer α) → Option (Timer α)
  | [] => none
  | tm :: rest =>
    match earliest rest with
    | none => some tm
    | some m => if m.due < tm.due then some m else some tm

/-- The host runs, in order, the timers due before `limit`; `fuel` bounds the
number of timers run. -/
def fireDue {α : Type} (limit : Nat) : Nat → Debounced α → Debounced α
  | 0, s => s
  | fuel + 1, s =>
    match earliest (s.timers.filter (fun tm => tm.due < limit)) with
    | none => s
    | some tm => fireDue limit fuel (later tm s)

/-- One call of the wrapper: its instant, its arguments, and the order the
host picks when a timer is due at that very instant (`true`: the timer runs
before the call is handled; `false`: the call is handled first). -/
structure Call (α : Type) where
  time : Nat
  args : α
  timerFirst : Bool := false
  deriving DecidableEq, Repr

/-- The wrapper is called: the timers due before the call's instant have run,
and those due at that instant have run when the host put them first. -/
def callAt {α : Type} (wait : Nat) (s : Debounced α) (call : Call α) : Debounced α :=
  let limit := if call.timerFirst then call.time + 1 else call.time
  let s1 := fireDue limit s.timers.length s
  executedFunction wait call.args { s1 with now := call.time }

/-- A sequence of calls of the wrapper on a fresh wrapper. -/
def runCalls {α : Type} (wait : Nat) (calls : List (Call α)) : Debounced α :=
  calls.foldl (callAt wait) {}

/-- The calls of `func` made up to and including instant `t`. -/
def firedBy {α : Type} (t : Nat) (s : Debounced α) : List (Nat × α) :=
  (fireDue (t + 1) s.timers.length s).fired

/-- The series `chart.data.datasets[i].data` of a registry entry, when the
chart and every object on the way exist. -/
def seriesAt (chart : Option Chart) (i : Nat) : Option (List Int) :=
  match chart with
  | some c =>
    match c.data with
    | some d =>
      match d.datasets with
      | some ds => (ds[i]?).map Series.data
      | none => none
    | none => none
  | none => none

/-- The labels `chart.data.labels` of a registry entry. -/
def labelsOf (chart : Option Chart) : Option (List String) :=
  match chart with
  | some c => c.data.map ChartData.labels
  | none => none

/-! ## Reading CSV text back -/

/-- The pieces of a character list between the occurrences of `sep`; there is
always at least one piece. -/
def splitChars (sep : Char) : List Char → List (List Char)
  | [] => [[]]
  | c :: cs =>
    if c = sep then [] :: splitChars sep cs
    else
      match splitChars sep cs with
      | [] => [[c]]
      | piece :: pieces => (c :: piece) :: pieces

/-- The call `text.split(sep)` for a one-character separator. -/
def split (sep : Char) (text : String) : List String :=
  (splitChars sep text.data).map String.mk

/-- The reader the round-trip property names, written from its words: the text
is split on newlines, every line is split on commas, the first line gives the
field names, and every later line gives a record pairing the names with its
fields, in order, as strings. -/
def parseCSV (text : String) : List Record :=
  match split '\n' text with
  | [] => []
  | headerLine :: lines =>
    let names := split ',' headerLine
    lines.map (fun line => List.zip names ((split ',' line).map Value.str))

/-- A record with every value replaced by the string that `join` writes for
it. -/
def stringForm (row : Record) : Record :=
  row.map (fun kv => (kv.1, Value.str (elementToString kv.2)))

/-- The fields of one CSV line, read with the quoting honoured: a comma
separates two fields when it stands outside double quotes; `q` tells whether
the text so far has left a quote open.  The fields keep their quotes. -/
def splitFields : Bool → List Char → List (List Char)
  | _, [] => [[]]
  | q, c :: cs =>
    if c = ',' ∧ q = false then [] :: splitFields q cs
    else
      match splitFields (if c = '"' then !q else q) cs with
      | [] => [[c]]
      | field :: fields => (c :: field) :: fields

/-- The fields of one CSV line, as strings. -/
def csvFields (line : String) : List String :=
  (splitFields false line.data).map String.mk

/-- Reading a piece of text from quote state `q`: the quote state at its end,
or `none` when a comma stands outside quotes in it. -/
def scanField : Bool → List Char → Option Bool
  | q, [] => some q
  | q, c :: cs =>
    if c = ',' ∧ q = false then none
    else scanField (if c = '"' then !q else q) cs

/-- A character that never forces quoting. -/
def plainChar (c : Char) : Prop := c ≠ ',' ∧ c ≠ '"' ∧ c ≠ '\n'

instance plainCharDecidable : DecidablePred plainChar :=
  fun c => inferInstanceAs (Decidable (c ≠ ',' ∧ c ≠ '"' ∧ c ≠ '\n'))

/-- A field value of a dataset: a string free of comma, double quote and
newline, or a number. -/
def plainValue : Value → Prop
  | Value.str s => ∀ c ∈ s.data, plainChar c
  | Value.num _ => True
  | _ => False

instance plainValueDecidable : DecidablePred plainValue :=
  fun v =>
    match v with
    | Value.str s => inferInstanceAs (Decidable (∀ c ∈ s.data, plainChar c))
    | Value.num _ => isTrue trivial
    | Value.undefined => isFalse (fun h => h)
    | Value.null => isFalse (fun h => h)
    | Value.native _ => isFalse (fun h => h)

/-- The state right after a call at instant `t` with arguments `a` when `func`
has not run yet: one pending timer, due at `t + wait`, holding `a`. -/
def Armed {α : Type} (wait t : Nat) (a : α) (s : Debounced α) : Prop :=
  ∃ i, s.timers = [⟨i, t + wait, a⟩] ∧ s.timeout = some i ∧ s.fired = [] ∧ s.now = t

/-! # Theorems -/

/-! ## Lemmas on the built-ins -/

theorem joinLoop_eq_go (sep : String) (xs : List String) (k : Nat) (r : String) :
    joinLoop sep xs (k + 1) r = String.intercalate.go r sep xs := by
  induction xs generalizing k r with
  | nil => simp [joinLoop, String.intercalate.go]
  | cons x xs ih => simp [joinLoop, String.intercalate.go, ih]

theorem join_eq_intercalate (sep : String) (xs : List String) :
    join sep xs = String.intercalate sep xs := by
  cases xs with
  | nil => simp [join, joinLoop, String.intercalate]
  | cons x xs => simp [join, joinLoop, String.intercalate, joinLoop_eq_go]

theorem includes_char (s : String) (c : Char) :
    includes s (String.singleton c) = true ↔ c ∈ s.data := by
  simp only [includes, decide_eq_true_eq]
  show [c] <:+: s.data ↔ c ∈ s.data
  constructor
  · rintro ⟨a, b, h⟩
    rw [← h]; simp
  · intro h
    obtain ⟨a, b, hab⟩ := List.append_of_mem h
    exact ⟨a, b, by simp [hab]⟩

theorem digitChar_plain (n : Nat) (h : n < 10) : plainChar (Nat.digitChar n) := by
  unfold plainChar
  interval_cases n <;> decide

theorem toDigitsCore_plain (fuel n : Nat) (ds : List Char)
    (hds : ∀ c ∈ ds, plainChar c) :
    ∀ c ∈ Nat.toDigitsCore 10 fuel n ds, plainChar c := by
  induction fuel generalizing n ds with
  | zero => simpa [Nat.toDigitsCore] using hds
  | succ fuel ih =>
    have hcons : ∀ c ∈ Nat.digitChar (n % 10) :: ds, plainChar c := by
      intro c hc
      rcases List.mem_cons.mp hc with h | h
      · exact h ▸ digitChar_plain _ (Nat.mod_lt _ (by decide))
      · exact hds c h
    unfold Nat.toDigitsCore
    simp only
    split
    · exact hcons
    · exact ih _ _ hcons

theorem toDigits_plain (n : Nat) : ∀ c ∈ Nat.toDigits 10 n, plainChar c := by
  simp only [Nat.toDigits]
  exact toDigitsCore_plain _ _ _ (by simp)

theorem finiteToChars_plain (s : Nat) (n : Int) : ∀ c ∈ finiteToChars s n, plainChar c := by
  have hd := toDigits_plain s
  have hzero : plainChar '0' := by unfold plainChar; decide
  have hdot : plainChar '.' := by unfold plainChar; decide
  have he : plainChar 'e' := by unfold plainChar; decide
  have hminus : plainChar '-' := by unfold plainChar; decide
  have hplus : plainChar '+' := by unfold plainChar; decide
  have hexp := toDigits_plain (n - 1).natAbs
  have htake : ∀ m, ∀ c ∈ (Nat.toDigits 10 s).take m, plainChar c :=
    fun m c hc => hd c (List.mem_of_mem_take hc)
  have hdrop : ∀ m, ∀ c ∈ (Nat.toDigits 10 s).drop m, plainChar c :=
    fun m c hc => hd c (List.mem_of_mem_drop hc)
  have hrep : ∀ m, ∀ c ∈ List.replicate m '0', plainChar c :=
    fun m c hc => (List.mem_replicate.mp hc).2 ▸ hzero
  unfold finiteToChars
  simp only
  split_ifs <;> simp only [List.forall_mem_append, List.forall_mem_cons] <;>
    (repeat' constructor) <;>
    first
      | exact hd | exact hexp | exact hzero | exact hdot | exact he | exact hminus
      | exact hplus | exact htake _ | exact hdrop _ | exact hrep _ | decide

theorem numberToString_plain (n : JSNumber) :
    ∀ c ∈ (numberToString n).data, plainChar c := by
  cases n with
  | nan => unfold plainChar; decide
  | infinity negative => cases negative <;> (unfold plainChar; decide)
  | zero => unfold plainChar; decide
  | finite negative s n =>
    cases negative with
    | false => exact finiteToChars_plain s n
    | true =>
      intro c hc
      rcases List.mem_cons.mp hc with h | h
      · rw [h]; unfold plainChar; decide
      · exact finiteToChars_plain s n c h

theorem inheritedText_plain (p : Inherited) : ∀ c ∈ p.text.data, plainChar c := by
  cases p <;> (unfold plainChar; decide)

theorem plain_not_includes (s : String) (h : ∀ c ∈ s.data, plainChar c) :
    (includes s "," || includes s "\"" || includes s "\n") = false := by
  have h1 : includes s "," = false := by
    rw [Bool.eq_false_iff]; intro hc
    exact (h _ ((includes_char s ',').mp hc)).1 rfl
  have h2 : includes s "\"" = false := by
    rw [Bool.eq_false_iff]; intro hc
    exact (h _ ((includes_char s '"').mp hc)).2.1 rfl
  have h3 : includes s "\n" = false := by
    rw [Bool.eq_false_iff]; intro hc
    exact (h _ ((includes_char s '\n').mp hc)).2.2 rfl
  simp [h1, h2, h3]

theorem includes_iff_mem (s : String) :
    (includes s "," || includes s "\"" || includes s "\n") = true ↔
      (',' ∈ s.data ∨ '"' ∈ s.data ∨ '\n' ∈ s.data) := by
  simp only [Bool.or_eq_true, or_assoc]
  exact or_congr (includes_char s ',') (or_congr (includes_char s '"') (includes_char s '\n'))

theorem join_singleton (sep x : String) : join sep [x] = x := by
  simp [join, joinLoop]

/-- C1: a string or number value is emitted quoted, with its quotes doubled,
exactly when its string form holds a comma, a double quote or a newline, and
unchanged otherwise; the string form of a number (an integer, a fraction, one
in exponent form, an infinity or not-a-number) never does. -/
theorem convertToCSV_field_quoting :
    (∀ s : String, elementToString (escapeValue (Value.str s)) =
        if ',' ∈ s.data ∨ '"' ∈ s.data ∨ '\n' ∈ s.data
        then "\"" ++ replaceQuotes s ++ "\"" else s) ∧
    (∀ n : JSNumber, elementToString (escapeValue (Value.num n)) =
        if ',' ∈ (numberToString n).data ∨ '"' ∈ (numberToString n).data ∨
            '\n' ∈ (numberToString n).data
        then "\"" ++ replaceQuotes (numberToString n) ++ "\"" else numberToString n) ∧
    (∀ (key : String) (v : Value),
        convertToCSV (Data.array [[(key, v)]]) =
          key ++ "\n" ++ elementToString (escapeValue v)) ∧
    convertToCSV (Data.array [[("q", Value.str "He said \"hi\", bye")]]) =
      "q\n\"He said \"\"hi\"\", bye\"" ∧
    convertToCSV (Data.array
      [[("a", Value.num (JSNumber.finite false 15 1)),
        ("b", Value.num (JSNumber.finite false 9223372036854776 19)),
        ("c", Value.num (JSNumber.finite true 1 22)),
        ("d", Value.num JSNumber.nan),
        ("e", Value.num (JSNumber.infinity true)),
        ("f", Value.num (JSNumber.finite false 25 (-6)))]]) =
      "a,b,c,d,e,f\n1.5,9223372036854776000,-1e+21,NaN,-Infinity,2.5e-7" := by
  refine ⟨?_, ?_, ?_, by decide, by decide⟩
  · intro s
    by_cases h : (includes s "," || includes s "\"" || includes s "\n") = true
    · have h2 := (includes_iff_mem s).mp h
      simp only [escapeValue, h, if_true, elementToString, h2]
    · have h2 : ¬ (',' ∈ s.data ∨ '"' ∈ s.data ∨ '\n' ∈ s.data) :=
        fun hc => h ((includes_iff_mem s).mpr hc)
      simp only [escapeValue, h, if_false, elementToString, h2]
      simp
  · intro n
    have hp := numberToString_plain n
    have h2 : ¬ (',' ∈ (numberToString n).data ∨ '"' ∈ (numberToString n).data ∨
        '\n' ∈ (numberToString n).data) := by
      rintro (h | h | h)
      · exact (hp _ h).1 rfl
      · exact (hp _ h).2.1 rfl
      · exact (hp _ h).2.2 rfl
    simp only [escapeValue, elementToString, h2, if_false]
  · intro key v
    simp [convertToCSV, keys, csvRow, joinValues, join_singleton, getProp, List.lookup]

theorem csvRow_eq (headers : List String) (row : Record) :
    csvRow headers row =
      String.intercalate ","
        (headers.map (fun h => elementToString (escapeValue (getProp row h)))) := by
  simp [csvRow, joinValues, join_eq_intercalate, List.map_map, Function.comp_def]

theorem lookup_missing (row : Record) (h : String) (hk : h ∉ row.map Prod.fst) :
    row.lookup h = none := by
  rw [List.lookup_eq_none_iff]
  intro p hp
  simp only [bne_iff_ne, ne_eq]
  intro hph
  apply hk
  simp only [List.mem_map]
  exact ⟨p, hp, hph.symm⟩

theorem inheritedProp_none (h : String) (hp : ∀ p : Inherited, p.name ≠ h) :
    inheritedProp h = none := by
  simp only [inheritedProp, List.find?_eq_none]
  intro p _
  simpa using hp p

theorem getProp_missing (row : Record) (h : String) (hk : h ∉ row.map Prod.fst)
    (hp : ∀ p : Inherited, p.name ≠ h) :
    getProp row h = Value.undefined := by
  simp [getProp, lookup_missing row h hk, inheritedProp_none h hp]

theorem getProp_cons_ne (k h : String) (v : Value) (tl : Record) (hne : h ≠ k) :
    getProp ((k, v) :: tl) h = getProp tl h := by
  have hb : (h == k) = false := by simpa using hne
  simp [getProp, List.lookup, hb]

theorem getProp_keys (row : Record) (hnodup : (row.map Prod.fst).Nodup) :
    (row.map Prod.fst).map (getProp row) = row.map Prod.snd := by
  induction row with
  | nil => rfl
  | cons kv tl ih =>
    obtain ⟨k, v⟩ := kv
    simp only [List.map_cons, List.nodup_cons] at hnodup
    have hhead : getProp ((k, v) :: tl) k = v := by simp [getProp, List.lookup]
    have htl : (tl.map Prod.fst).map (getProp ((k, v) :: tl)) =
        (tl.map Prod.fst).map (getProp tl) := by
      apply List.map_congr_left
      intro h hh
      exact getProp_cons_ne k h v tl (fun e => hnodup.1 (e ▸ hh))
    simp only [List.map_cons, hhead]
    rw [htl, ih hnodup.2]

theorem own_fields (row : Record) (hnodup : (row.map Prod.fst).Nodup) :
    (row.map Prod.fst).map (fun h => elementToString (escapeValue (getProp row h))) =
      row.map (fun kv => elementToString (escapeValue kv.2)) := by
  have h1 : (row.map Prod.fst).map (fun h => elementToString (escapeValue (getProp row h))) =
      ((row.map Prod.fst).map (getProp row)).map (fun v => elementToString (escapeValue v)) := by
    simp [List.map_map, Function.comp_def]
  rw [h1, getProp_keys row hnodup, List.map_map]
  rfl

theorem intercalate_go_data (sep : String) (xs : List String) (acc : String) :
    (String.intercalate.go acc sep xs).data =
      acc.data ++ xs.flatMap (fun y => sep.data ++ y.data) := by
  induction xs generalizing acc with
  | nil => simp [String.intercalate.go]
  | cons x xs ih => simp [String.intercalate.go, ih, String.data_append]

theorem intercalate_data (sep x : String) (xs : List String) :
    (String.intercalate sep (x :: xs)).data =
      x.data ++ xs.flatMap (fun y => sep.data ++ y.data) := by
  simp [String.intercalate, intercalate_go_data]

theorem splitFields_ne_nil (q : Bool) (l : List Char) : splitFields q l ≠ [] := by
  induction l generalizing q with
  | nil => simp [splitFields]
  | cons c cs ih =>
    by_cases hc : c = ',' ∧ q = false
    · rw [splitFields, if_pos hc]; simp
    · rw [splitFields, if_neg hc]
      cases splitFields (if c = '"' then !q else q) cs <;> simp

theorem splitFields_append (f : List Char) :
    ∀ (q q2 : Bool) (rest : List Char), scanField q f = some q2 →
      splitFields q (f ++ rest) =
        match splitFields q2 rest with
        | [] => [f]
        | field :: fields => (f ++ field) :: fields := by
  induction f with
  | nil =>
    intro q q2 rest h
    simp only [scanField, Option.some.injEq] at h
    subst h
    cases hsp : splitFields q rest with
    | nil => exact absurd hsp (splitFields_ne_nil q rest)
    | cons field fields => simp [hsp]
  | cons c cs ih =>
    intro q q2 rest h
    by_cases hc : c = ',' ∧ q = false
    · rw [scanField, if_pos hc] at h
      exact absurd h (by simp)
    · rw [scanField, if_neg hc] at h
      have hrec := ih _ q2 rest h
      rw [List.cons_append, splitFields, if_neg hc, hrec]
      cases splitFields q2 rest <;> rfl

theorem splitFields_pieces (xs : List (List Char)) :
    ∀ x : List Char, scanField false x = some false →
      (∀ y ∈ xs, scanField false y = some false) →
      splitFields false (x ++ xs.flatMap (fun y => ',' :: y)) = x :: xs := by
  induction xs with
  | nil =>
    intro x hx _
    rw [List.flatMap_nil, splitFields_append x false false [] hx]
    simp [splitFields]
  | cons y ys ih =>
    intro x hx hys
    have hy := hys y (by simp)
    have hrest : ∀ z ∈ ys, scanField false z = some false := fun z hz => hys z (by simp [hz])
    rw [List.flatMap_cons, splitFields_append x false false _ hx]
    have : splitFields false ((',' :: y) ++ ys.flatMap (fun y => ',' :: y)) =
        [] :: (y :: ys) := by
      rw [List.cons_append, splitFields, if_pos ⟨rfl, rfl⟩, ih y hy hrest]
    rw [this]
    simp

theorem scanField_plain (f : List Char) (q : Bool) (h : ∀ c ∈ f, plainChar c) :
    scanField q f = some q := by
  induction f with
  | nil => rfl
  | cons c cs ih =>
    have hc := h c (by simp)
    have hcs : ∀ d ∈ cs, plainChar d := fun d hd => h d (by simp [hd])
    rw [scanField, if_neg (fun hcomma => hc.1 hcomma.1), if_neg hc.2.1]
    exact ih hcs

theorem scanField_append (a b : List Char) (q : Bool) :
    scanField q (a ++ b) = (scanField q a).bind (fun q2 => scanField q2 b) := by
  induction a generalizing q with
  | nil => rfl
  | cons c cs ih =>
    by_cases hc : c = ',' ∧ q = false
    · simp [scanField, hc]
    · simp only [List.cons_append, scanField, if_neg hc]
      exact ih _

theorem scanField_doubled (l : List Char) :
    scanField true (l.flatMap (fun c => if c = '"' then ['"', '"'] else [c])) = some true := by
  induction l with
  | nil => rfl
  | cons c cs ih =>
    rw [List.flatMap_cons]
    by_cases hc : c = '"'
    · subst hc
      simp only [if_true, List.cons_append, List.nil_append]
      rw [scanField, if_neg (by decide), scanField, if_neg (by decide)]
      simpa using ih
    · simp only [hc, if_false, List.cons_append, List.nil_append]
      rw [scanField, if_neg (by simp), if_neg hc]
      exact ih

theorem field_sealed (v : Value) :
    scanField false (elementToString (escapeValue v)).data = some false := by
  cases v with
  | undefined => rfl
  | null => rfl
  | num n => exact scanField_plain _ _ (numberToString_plain n)
  | native p => exact scanField_plain _ _ (inheritedText_plain p)
  | str s =>
    by_cases h : (includes s "," || includes s "\"" || includes s "\n") = true
    · simp only [escapeValue, h, if_true, elementToString, String.data_append]
      show scanField false (['"'] ++ (replaceQuotes s).data ++ ['"']) = some false
      rw [scanField_append, List.singleton_append, scanField, if_neg (by decide)]
      simp only [if_true, Bool.not_false]
      rw [show (replaceQuotes s).data =
        s.data.flatMap (fun c => if c = '"' then ['"', '"'] else [c]) from rfl,
        scanField_doubled]
      rfl
    · have hplain : ∀ c ∈ s.data, plainChar c := by
        intro c hc
        have hnot : ¬ (',' ∈ s.data ∨ '"' ∈ s.data ∨ '\n' ∈ s.data) :=
          fun hx => h ((includes_iff_mem s).mpr hx)
        refine ⟨?_, ?_, ?_⟩ <;> intro e <;> subst e <;> apply hnot <;> simp [hc]
      simp only [escapeValue, h, if_false, elementToString]
      exact scanField_plain _ _ hplain

theorem csvFields_intercalate (x : String) (xs : List String)
    (h : ∀ y ∈ x :: xs, scanField false y.data = some false) :
    csvFields (String.intercalate "," (x :: xs)) = x :: xs := by
  have hx := h x (by simp)
  have hxs : ∀ y ∈ xs.map String.data, scanField false y = some false := by
    intro y hy
    obtain ⟨z, hz, rfl⟩ := List.mem_map.mp hy
    exact h z (by simp [hz])
  have hdata : (String.intercalate "," (x :: xs)).data =
      x.data ++ (xs.map String.data).flatMap (fun y => ',' :: y) := by
    rw [intercalate_data]
    simp [List.flatMap_map]
  simp only [csvFields, hdata]
  rw [splitFields_pieces _ _ hx hxs]
  simp [List.map_map, Function.comp_def]

theorem csvFields_csvRow (headers : List String) (row : Record) (hne : headers ≠ []) :
    csvFields (csvRow headers row) =
      headers.map (fun h => elementToString (escapeValue (getProp row h))) := by
  rw [csvRow_eq]
  cases headers with
  | nil => exact absurd rfl hne
  | cons k ks =>
    rw [List.map_cons]
    apply csvFields_intercalate
    intro y hy
    rcases List.mem_cons.mp hy with h | h
    · rw [h]; exact field_sealed _
    · obtain ⟨h2, _, rfl⟩ := List.mem_map.mp h
      exact field_sealed _

/-- C7: for a non-empty dataset the text is the first record's field names,
in their order, joined by commas, a newline, and then one line per record, in
dataset order, joined by newlines with none at the end; each line lists, in
the order of the header, the encoded value read from the record under each
name, so for records that all carry the header's names in the header's order
it lists the record's own values in the record's order.  The empty dataset
gives the empty string. -/
theorem convertToCSV_layout (first : Record) (rest : List Record) :
    convertToCSV (Data.array []) = "" ∧
    convertToCSV (Data.array (first :: rest)) =
      String.intercalate "," (first.map Prod.fst) ++ "\n" ++
        String.intercalate "\n"
          ((first :: rest).map (fun row =>
            String.intercalate ","
              ((first.map Prod.fst).map (fun k =>
                elementToString (escapeValue
                  (match row.lookup k with
                  | some v => v
                  | none =>
                    match inheritedProp k with
                    | some p => Value.native p
                    | none => Value.undefined)))))) ∧
    ((first.map Prod.fst).Nodup →
      (∀ row ∈ rest, row.map Prod.fst = first.map Prod.fst) →
      convertToCSV (Data.array (first :: rest)) =
        String.intercalate "," (first.map Prod.fst) ++ "\n" ++
          String.intercalate "\n"
            ((first :: rest).map (fun row =>
              String.intercalate ","
                (row.map (fun kv => elementToString (escapeValue kv.2)))))) := by
  have hrows : (first :: rest).map (csvRow (keys first)) =
      (first :: rest).map (fun row => String.intercalate ","
        ((first.map Prod.fst).map (fun h => elementToString (escapeValue (getProp row h))))) :=
    List.map_congr_left (fun row _ => csvRow_eq (keys first) row)
  have hgen : convertToCSV (Data.array (first :: rest)) =
      String.intercalate "," (first.map Prod.fst) ++ "\n" ++
        String.intercalate "\n"
          ((first :: rest).map (fun row =>
            String.intercalate ","
              ((first.map Prod.fst).map (fun h =>
                elementToString (escapeValue (getProp row h)))))) := by
    simp only [convertToCSV, join_eq_intercalate, hrows]
    rfl
  refine ⟨rfl, hgen, ?_⟩
  intro hnodup hshape
  rw [hgen]
  congr 2
  apply List.map_congr_left
  intro row hrow
  have hk : row.map Prod.fst = first.map Prod.fst := by
    rcases List.mem_cons.mp hrow with h | h
    · rw [h]
    · exact hshape row h
  rw [← hk, own_fields row (hk ▸ hnodup)]

/-- C7 at a concrete dataset of two records with a text and a number field. -/
theorem convertToCSV_layout_witness :
    convertToCSV (Data.array
      [[("name", Value.str "Ann"), ("level", Value.num (JSNumber.finite false 3 1))],
       [("name", Value.str "Bob, Jr"), ("level", Value.num (JSNumber.finite false 15 1))]]) =
      "name,level\nAnn,3\n\"Bob, Jr\",1.5" :=
  ((convertToCSV_layout
      [("name", Value.str "Ann"), ("level", Value.num (JSNumber.finite false 3 1))]
      [[("name", Value.str "Bob, Jr"), ("level", Value.num (JSNumber.finite false 15 1))]]).2.2
    (by decide) (by decide)).trans (by decide)

/-- C9 (as the claim states it, refuted): the second record lacks the key
named constructor of the first one, and its line starts not with an empty
field but with the text of the function every object inherits under that
name. -/
theorem convertToCSV_missing_key_inherited :
    convertToCSV (Data.array
      [[("constructor", Value.str "x"), ("a", Value.num (JSNumber.finite false 1 1))],
       [("a", Value.num (JSNumber.finite false 2 1))]]) =
      "constructor,a\nx,1\nfunction Object() \x7b [native code] \x7d,2" ∧
    csvFields (csvRow ["constructor", "a"] [("a", Value.num (JSNumber.finite false 2 1))]) =
      ["function Object() \x7b [native code] \x7d", "2"] := by
  decide

/-- C9 (amended): a record lacking a key of the first record, the key not
being the name of a property inherited from `Object.prototype`, gets an empty
field at that key's position: read with the quoting honoured, its line has
exactly one field per field name of the first record and the field at the
key's position is empty; the text of the dataset holds that line. -/
theorem convertToCSV_missing_key (first : Record) (rest : List Record) (row : Record)
    (i : Nat) (h : String) (hrow : row ∈ first :: rest)
    (hi : (first.map Prod.fst)[i]? = some h) (hmiss : h ∉ row.map Prod.fst)
    (hown : ∀ p : Inherited, p.name ≠ h) :
    (csvFields (csvRow (first.map Prod.fst) row))[i]? = some "" ∧
    (csvFields (csvRow (first.map Prod.fst) row)).length = first.length ∧
    ∃ before after : List String,
      before.length + after.length = rest.length ∧
      convertToCSV (Data.array (first :: rest)) =
        String.intercalate "," (first.map Prod.fst) ++ "\n" ++
          String.intercalate "\n" (before ++ csvRow (first.map Prod.fst) row :: after) := by
  have hne : first.map Prod.fst ≠ [] := by
    intro hnil
    rw [hnil] at hi
    simp at hi
  rw [csvFields_csvRow _ row hne]
  refine ⟨?_, by simp, ?_⟩
  · rw [List.getElem?_map, hi, Option.map_some', getProp_missing row h hmiss hown]
    rfl
  · obtain ⟨a, b, hab⟩ := List.append_of_mem hrow
    refine ⟨a.map (csvRow (first.map Prod.fst)), b.map (csvRow (first.map Prod.fst)), ?_, ?_⟩
    · have hlen := congrArg List.length hab
      simp only [List.length_cons, List.length_append] at hlen
      simp only [List.length_map]
      omega
    · simp only [convertToCSV, join_eq_intercalate, hab, List.map_append, List.map_cons, keys]

/-- C9 (amended) at a concrete dataset: the second record has no field b, and
its line is the text 2 followed by a comma and an empty field. -/
theorem convertToCSV_missing_key_witness :
    (csvFields (csvRow ["a", "b"] [("a", Value.num (JSNumber.finite false 2 1))]))[1]? =
      some "" ∧
    (csvFields (csvRow ["a", "b"] [("a", Value.num (JSNumber.finite false 2 1))])).length =
      2 ∧
    convertToCSV (Data.array
      [[("a", Value.num (JSNumber.finite false 1 1)), ("b", Value.str "x")],
       [("a", Value.num (JSNumber.finite false 2 1))]]) = "a,b\n1,x\n2," := by
  have h := convertToCSV_missing_key
    [("a", Value.num (JSNumber.finite false 1 1)), ("b", Value.str "x")]
    [[("a", Value.num (JSNumber.finite false 2 1))]]
    [("a", Value.num (JSNumber.finite false 2 1))] 1 "b" (by decide) rfl (by decide)
    (by intro p; cases p <;> decide)
  exact ⟨h.1, h.2.1, by decide⟩

/-! ## `exportData` -/

/-- C5 (as the claim states it, refuted): with the empty array as dataset and
format csv, `exportData` shows no warning, downloads a file with empty content
and shows the success notification. -/
theorem exportData_empty_array_is_exported :
    exportData (fun _ => "[]") "2024-05-01" (some "csv") (some (Data.array [])) {} =
      { notifications :=
          [⟨"داده‌ها در فایل telegram_bot_data_2024-05-01.csv صادر شد", "success"⟩],
        downloads := [⟨"", "telegram_bot_data_2024-05-01.csv", "text/csv;charset=utf-8;"⟩],
        consoleErrors := [] } := by
  decide

/-- C5 (amended): for every format, a dataset that is absent (omitted,
`undefined` or `null`) gives exactly one more notification, the warning, and
no download. -/
theorem exportData_absent_dataset (stringify : Data → String) (today : String)
    (typeArg : Option String) (dataArg : Option Data) (e : Effects)
    (habsent : dataArg = none ∨ dataArg = some Data.undefined ∨ dataArg = some Data.null) :
    (exportData stringify today typeArg dataArg e).notifications =
      e.notifications ++ [⟨"هیچ داده‌ای برای صادرات وجود ندارد", "warning"⟩] ∧
    (exportData stringify today typeArg dataArg e).downloads = e.downloads ∧
    (exportData stringify today typeArg dataArg e).consoleErrors = e.consoleErrors := by
  rcases habsent with rfl | rfl | rfl <;> exact ⟨rfl, rfl, rfl⟩

/-- C5 (amended) at a concrete call: format json and `null` as dataset. -/
theorem exportData_absent_dataset_witness :
    (exportData (fun _ => "null") "2024-05-01" (some "json") (some Data.null)
        {}).notifications = [⟨"هیچ داده‌ای برای صادرات وجود ندارد", "warning"⟩] ∧
    (exportData (fun _ => "null") "2024-05-01" (some "json") (some Data.null)
        {}).downloads = [] := by
  have h := exportData_absent_dataset (fun _ => "null") "2024-05-01" (some "json")
    (some Data.null) {} (Or.inr (Or.inr rfl))
  exact ⟨h.1, h.2.1⟩

/-- C10: for a truthy dataset, `exportData` adds exactly one notification, the
success message naming the file `telegram_bot_data_<date>.<format>`, whatever
the format; it adds exactly one download when the format is csv or json and
none otherwise, so a format such as xml gets the success message without any
file. -/
theorem exportData_success_without_file (stringify : Data → String) (today : String)
    (typeArg : Option String) (dataArg : Option Data) (e : Effects)
    (hdata : (dataArg.getD Data.null).falsy = false) :
    (exportData stringify today typeArg dataArg e).notifications =
      e.notifications ++
        [⟨"داده‌ها در فایل " ++ ("telegram_bot_data_" ++ today ++ "." ++ typeArg.getD "csv") ++
            " صادر شد", "success"⟩] ∧
    (typeArg.getD "csv" = "csv" →
      (exportData stringify today typeArg dataArg e).downloads =
        e.downloads ++
          [⟨convertToCSV (dataArg.getD Data.null),
            "telegram_bot_data_" ++ today ++ "." ++ "csv", "text/csv;charset=utf-8;"⟩]) ∧
    (typeArg.getD "csv" = "json" →
      (exportData stringify today typeArg dataArg e).downloads =
        e.downloads ++
          [⟨stringify (dataArg.getD Data.null),
            "telegram_bot_data_" ++ today ++ "." ++ "json",
            "application/json;charset=utf-8;"⟩]) ∧
    (¬ (typeArg.getD "csv" = "csv" ∨ typeArg.getD "csv" = "json") →
      (exportData stringify today typeArg dataArg e).downloads = e.downloads) ∧
    (exportData stringify today (some "xml") dataArg e).downloads = e.downloads ∧
    (exportData stringify today (some "xml") dataArg e).notifications =
      e.notifications ++
        [⟨"داده‌ها در فایل " ++ ("telegram_bot_data_" ++ today ++ "." ++ "xml") ++ " صادر شد",
          "success"⟩] := by
  have hx1 : ("xml" : String) ≠ "csv" := by decide
  have hx2 : ("xml" : String) ≠ "json" := by decide
  have hj : ("json" : String) ≠ "csv" := by decide
  refine ⟨?_, ?_, ?_, ?_, ?_, ?_⟩
  · simp only [exportData, hdata, Bool.false_eq_true, if_false, exportFilename]
    split_ifs <;> simp [showNotification, exportToCSV, exportToJSON, downloadFile]
  · intro h
    simp [exportData, hdata, h, showNotification, exportToCSV, downloadFile, exportFilename]
  · intro h
    simp [exportData, hdata, h, hj, showNotification, exportToJSON, downloadFile,
      exportFilename]
  · intro h
    push_neg at h
    simp [exportData, hdata, h.1, h.2, showNotification]
  · simp [exportData, hdata, hx1, hx2, showNotification]
  · simp [exportData, hdata, hx1, hx2, showNotification, exportFilename]

/-- C10 at a concrete input: a one-record dataset exported as xml. -/
theorem exportData_success_without_file_witness :
    (exportData (fun _ => "") "2024-05-01" (some "xml")
        (some (Data.array [[("a", Value.num (JSNumber.finite false 1 1))]])) {}).notifications =
      [⟨"داده‌ها در فایل telegram_bot_data_2024-05-01.xml صادر شد", "success"⟩] ∧
    (exportData (fun _ => "") "2024-05-01" (some "xml")
        (some (Data.array [[("a", Value.num (JSNumber.finite false 1 1))]])) {}).downloads = [] := by
  have h := exportData_success_without_file (fun _ => "") "2024-05-01" (some "xml")
    (some (Data.array [[("a", Value.num (JSNumber.finite false 1 1))]])) {} rfl
  exact ⟨h.2.2.2.2.2, h.2.2.2.2.1⟩

/-! ## `refreshCharts` -/

theorem fetchData_notifications {α : Type} (o : FetchOutcome α) (e : Effects) :
    (fetchData o e).2.notifications = e.notifications := by
  cases o with
  | rejected => rfl
  | response ok body =>
    cases ok <;> cases body <;> rfl

theorem seriesAt_updateChartData (chart : Chart) (u : Mapping)
    (h : seriesAt (some chart) 0 ≠ none) :
    seriesAt (some (updateChartData chart u)) 0 = some (objectValues u) := by
  obtain ⟨data, calls⟩ := chart
  cases data with
  | none => simp [seriesAt] at h
  | some d =>
    obtain ⟨labels, datasets⟩ := d
    cases datasets with
    | none => simp [seriesAt] at h
    | some ds =>
      cases ds with
      | nil => simp [seriesAt] at h
      | cons s0 rest => simp [seriesAt, updateChartData]

theorem refreshCharts_daily_null (net : Network) (page : Page)
    (h : (fetchData net.daily_activity
      (fetchData net.progress_by_section (fetchData net.users_by_level page.effects).2).2).1
        = none) :
    (refreshCharts net page).effects.notifications =
      page.effects.notifications ++ [⟨"داده‌ها به‌روزرسانی شد", "success"⟩] := by
  unfold refreshCharts
  simp only [h]
  have hn : (fetchData net.daily_activity
      (fetchData net.progress_by_section
        (fetchData net.users_by_level page.effects).2).2).2.notifications =
      page.effects.notifications := by
    simp only [fetchData_notifications]
  split <;> simp_all [showNotification]

/-- C3 (the code at the failing input): whatever the other two requests do,
when the `daily_activity` request fails (rejected promise or a response that
is not ok) a run of `refreshCharts` adds exactly one notification, and it is
the success message, not an error. -/
theorem refreshCharts_failed_fetch_shows_success
    (users progress : FetchOutcome Mapping) (body : Option ActivityData) (page : Page) :
    (refreshCharts ⟨users, progress, FetchOutcome.rejected⟩ page).effects.notifications =
      page.effects.notifications ++ [⟨"داده‌ها به‌روزرسانی شد", "success"⟩] ∧
    (refreshCharts ⟨users, progress, FetchOutcome.response false body⟩
        page).effects.notifications =
      page.effects.notifications ++ [⟨"داده‌ها به‌روزرسانی شد", "success"⟩] :=
  ⟨refreshCharts_daily_null _ _ rfl, refreshCharts_daily_null _ _ rfl⟩

theorem updateDailyActivityChart_others (charts : Charts) (data : Option ActivityData) :
    (updateDailyActivityChart charts data).1.usersByLevel = charts.usersByLevel ∧
    (updateDailyActivityChart charts data).1.progress = charts.progress := by
  unfold updateDailyActivityChart
  split
  · split
    · exact ⟨rfl, rfl⟩
    · dsimp only
      split <;> exact ⟨rfl, rfl⟩
  · exact ⟨rfl, rfl⟩

theorem updateDailyActivityChart_series (charts : Charts) (a : ActivityData)
    (h0 : seriesAt charts.dailyActivity 0 ≠ none)
    (h1 : seriesAt charts.dailyActivity 1 ≠ none) :
    labelsOf (updateDailyActivityChart charts (some a)).1.dailyActivity =
        some ((a.daily_users.getD []).map Prod.fst) ∧
    seriesAt (updateDailyActivityChart charts (some a)).1.dailyActivity 0 =
        some ((a.daily_users.getD []).map Prod.snd) ∧
    seriesAt (updateDailyActivityChart charts (some a)).1.dailyActivity 1 =
        some ((a.daily_progress.getD []).map Prod.snd) := by
  obtain ⟨cu, cp, cd⟩ := charts
  cases cd with
  | none => simp [seriesAt] at h0
  | some chart =>
    obtain ⟨data, calls⟩ := chart
    cases data with
    | none => simp [seriesAt] at h0
    | some d =>
      obtain ⟨labels, datasets⟩ := d
      cases datasets with
      | none => simp [seriesAt] at h0
      | some ds =>
        match ds with
        | [] => simp [seriesAt] at h0
        | [s0] => simp [seriesAt] at h1
        | s0 :: s1 :: rest =>
          simp [updateDailyActivityChart, seriesAt, labelsOf]

/-- The registry after one run of `refreshCharts`, step by step. -/
theorem refreshCharts_charts (net : Network) (page : Page) :
    ∃ charts1 charts2 : Charts,
      charts1 =
        (match page.charts.usersByLevel, (fetchData net.users_by_level page.effects).1 with
          | some chart, some usersData =>
            { page.charts with usersByLevel := some (updateChartData chart usersData) }
          | _, _ => page.charts) ∧
      charts2 =
        (match charts1.progress,
            (fetchData net.progress_by_section
              (fetchData net.users_by_level page.effects).2).1 with
          | some chart, some progressData =>
            { charts1 with progress := some (updateChartData chart progressData) }
          | _, _ => charts1) ∧
      (refreshCharts net page).charts =
        (match charts2.dailyActivity,
            (fetchData net.daily_activity
              (fetchData net.progress_by_section
                (fetchData net.users_by_level page.effects).2).2).1 with
          | some _, some activityData =>
            (updateDailyActivityChart charts2 (some activityData)).1
          | _, _ => charts2) := by
  refine ⟨_, _, rfl, rfl, ?_⟩
  unfold refreshCharts
  dsimp only
  split <;> split <;> simp_all

theorem seriesAt_some_chart {c : Option Chart} {i : Nat} (h : seriesAt c i ≠ none) :
    ∃ chart, c = some chart := by
  cases c with
  | none => simp [seriesAt] at h
  | some chart => exact ⟨chart, rfl⟩

/-- C4: in one run of `refreshCharts`, each request that succeeds has its
update applied whatever the other two requests do: the first series of
`usersByLevel` becomes `Object.values(u)`, the first series of `progress`
becomes `Object.values(p)`, and the labels and the two series of
`dailyActivity` are replaced, provided the chart concerned holds the series. -/
theorem refreshCharts_non_interference (net : Network) (page : Page) :
    (∀ u : Mapping, net.users_by_level = FetchOutcome.response true (some u) →
      seriesAt page.charts.usersByLevel 0 ≠ none →
      seriesAt (refreshCharts net page).charts.usersByLevel 0 = some (objectValues u)) ∧
    (∀ p : Mapping, net.progress_by_section = FetchOutcome.response true (some p) →
      seriesAt page.charts.progress 0 ≠ none →
      seriesAt (refreshCharts net page).charts.progress 0 = some (objectValues p)) ∧
    (∀ a : ActivityData, net.daily_activity = FetchOutcome.response true (some a) →
      seriesAt page.charts.dailyActivity 0 ≠ none →
      seriesAt page.charts.dailyActivity 1 ≠ none →
      labelsOf (refreshCharts net page).charts.dailyActivity =
          some ((a.daily_users.getD []).map Prod.fst) ∧
      seriesAt (refreshCharts net page).charts.dailyActivity 0 =
          some ((a.daily_users.getD []).map Prod.snd) ∧
      seriesAt (refreshCharts net page).charts.dailyActivity 1 =
          some ((a.daily_progress.getD []).map Prod.snd)) := by
  obtain ⟨charts1, charts2, h1, h2, h3⟩ := refreshCharts_charts net page
  have h1p : charts1.progress = page.charts.progress := by
    rw [h1]; split <;> rfl
  have h1d : charts1.dailyActivity = page.charts.dailyActivity := by
    rw [h1]; split <;> rfl
  have h2u : charts2.usersByLevel = charts1.usersByLevel := by
    rw [h2]; split <;> rfl
  have h2d : charts2.dailyActivity = charts1.dailyActivity := by
    rw [h2]; split <;> rfl
  have h3u : (refreshCharts net page).charts.usersByLevel = charts2.usersByLevel := by
    rw [h3]; split
    · exact (updateDailyActivityChart_others _ _).1
    · rfl
  have h3p : (refreshCharts net page).charts.progress = charts2.progress := by
    rw [h3]; split
    · exact (updateDailyActivityChart_others _ _).2
    · rfl
  refine ⟨?_, ?_, ?_⟩
  · intro u hu hs
    obtain ⟨chart, hc⟩ := seriesAt_some_chart hs
    have : charts1.usersByLevel = some (updateChartData chart u) := by
      rw [h1, hu, hc]; rfl
    rw [h3u, h2u, this]
    exact seriesAt_updateChartData chart u (hc ▸ hs)
  · intro p hp hs
    obtain ⟨chart, hc⟩ := seriesAt_some_chart hs
    have hc1 : charts1.progress = some chart := h1p.trans hc
    have hf : (fetchData net.progress_by_section
        (fetchData net.users_by_level page.effects).2).1 = some p := by
      rw [hp]; rfl
    have : charts2.progress = some (updateChartData chart p) := by
      rw [h2, hc1, hf]
    rw [h3p, this]
    exact seriesAt_updateChartData chart p (hc ▸ hs)
  · intro a ha hs0 hs1
    obtain ⟨chart, hc⟩ := seriesAt_some_chart hs0
    have hc2 : charts2.dailyActivity = some chart := (h2d.trans h1d).trans hc
    have hf : (fetchData net.daily_activity
        (fetchData net.progress_by_section
          (fetchData net.users_by_level page.effects).2).2).1 = some a := by
      rw [ha]; rfl
    have : (refreshCharts net page).charts =
        (updateDailyActivityChart charts2 (some a)).1 := by
      rw [h3, hc2, hf]
    rw [this]
    apply updateDailyActivityChart_series
    · rw [h2d, h1d]; exact hs0
    · rw [h2d, h1d]; exact hs1

/-- C4 at a concrete run: the `daily_activity` request is rejected, the other
two succeed, and both charts take the new values. -/
theorem refreshCharts_non_interference_witness :
    seriesAt (refreshCharts
      ⟨FetchOutcome.response true (some [("beginner", 3), ("expert", 5)]),
        FetchOutcome.response true (some [("intro", 7)]),
        FetchOutcome.rejected⟩
      { charts := ⟨some ⟨some ⟨["x"], some [⟨[0]⟩]⟩, []⟩, some ⟨some ⟨["y"], some [⟨[1]⟩]⟩, []⟩,
          some ⟨some ⟨[], some [⟨[]⟩, ⟨[]⟩]⟩, []⟩⟩ }).charts.usersByLevel 0 = some [3, 5] ∧
    seriesAt (refreshCharts
      ⟨FetchOutcome.response true (some [("beginner", 3), ("expert", 5)]),
        FetchOutcome.response true (some [("intro", 7)]),
        FetchOutcome.rejected⟩
      { charts := ⟨some ⟨some ⟨["x"], some [⟨[0]⟩]⟩, []⟩, some ⟨some ⟨["y"], some [⟨[1]⟩]⟩, []⟩,
          some ⟨some ⟨[], some [⟨[]⟩, ⟨[]⟩]⟩, []⟩⟩ }).charts.progress 0 = some [7] :=
  ⟨(refreshCharts_non_interference _ _).1 [("beginner", 3), ("expert", 5)] rfl (by decide),
    (refreshCharts_non_interference _ _).2.1 [("intro", 7)] rfl (by decide)⟩

/-! ## `handleSearch` -/

theorem includes_iff (s sub : String) : includes s sub = true ↔ sub.data <:+: s.data := by
  simp [includes]

theorem mem_classListAdd (cls : String) (l : List String) : cls ∈ classListAdd cls l := by
  unfold classListAdd
  split_ifs with h
  · exact h
  · simp

theorem not_mem_classListRemove (cls : String) (l : List String) :
    cls ∉ classListRemove cls l := by
  simp [classListRemove]

theorem searchRow_spec (toLowerCase : String → String) (term : String) (row : Row) :
    (searchRow toLowerCase term row).textContent = row.textContent ∧
    ((searchRow toLowerCase term row).display ≠ "none" ↔
      term.data <:+: (toLowerCase row.textContent).data) ∧
    ((searchRow toLowerCase term row).display =
      if term.data <:+: (toLowerCase row.textContent).data then "" else "none") ∧
    ("table-warning" ∈ (searchRow toLowerCase term row).classList ↔
      (term.data <:+: (toLowerCase row.textContent).data ∧ term ≠ "")) := by
  have hne : ("" : String) ≠ "none" := by decide
  by_cases hinc : includes (toLowerCase row.textContent) term = true
  · have hin := (includes_iff _ _).mp hinc
    by_cases ht : term = ""
    · subst ht
      simp [searchRow, hinc, hin, hne, not_mem_classListRemove]
    · simp [searchRow, hinc, hin, ht, hne, mem_classListAdd]
  · have hin : ¬ term.data <:+: (toLowerCase row.textContent).data :=
      fun h => hinc ((includes_iff _ _).mpr h)
    simp [searchRow, hinc, hin, not_mem_classListRemove]

theorem visible_count (toLowerCase : String → String) (term : String) (rows : List Row) :
    ((rows.map (searchRow toLowerCase term)).filter (fun row => row.display ≠ "none")).length =
      rows.countP (fun row => decide (term.data <:+: (toLowerCase row.textContent).data)) := by
  induction rows with
  | nil => rfl
  | cons row rows ih =>
    have h := (searchRow_spec toLowerCase term row).2.1
    by_cases hin : term.data <:+: (toLowerCase row.textContent).data
    · have hd : (searchRow toLowerCase term row).display ≠ "none" := h.mpr hin
      have hdec := decide_eq_true hd
      simp only [List.map_cons, List.filter_cons, List.countP_cons, hdec, hin, decide_True,
        if_true, List.length_cons, ih]
    · have hd : ¬ (searchRow toLowerCase term row).display ≠ "none" := fun hc => hin (h.mp hc)
      have hdec := decide_eq_false hd
      simp only [List.map_cons, List.filter_cons, List.countP_cons, hdec, hin, decide_False,
        if_false, ih, Bool.false_eq_true, add_zero]

/-- C8: after `handleSearch` with `term` the lower-cased input value, a row is
visible exactly when its lower-cased text contains `term`, highlighted exactly
when it is visible and `term` is not empty, and the counter shows the number
of matching rows and the number of rows when `term` is not empty and is
hidden otherwise; for the rows Alice:Level3 and Bob:Level1 and the term
level3 only row 0 is visible and the counts are 1 and 2. -/
theorem handleSearch_filter (toLowerCase : String → String) (value : String)
    (page : SearchPage) :
    List.Forall₂
      (fun row out =>
        out.textContent = row.textContent ∧
        (out.display ≠ "none" ↔
          (toLowerCase value).data <:+: (toLowerCase row.textContent).data) ∧
        ("table-warning" ∈ out.classList ↔
          (out.display ≠ "none" ∧ toLowerCase value ≠ "")))
      page.rows (handleSearch toLowerCase value page).rows ∧
    (∀ el : CountElement, page.countElement = some el →
      (handleSearch toLowerCase value page).countElement =
        some (if toLowerCase value ≠ "" then
          { textContent := "نمایش " ++
              toString (page.rows.countP (fun row =>
                decide ((toLowerCase value).data <:+: (toLowerCase row.textContent).data))) ++
              " از " ++ toString page.rows.length ++ " نتیجه",
            display := "block" }
        else { el with display := "none" })) ∧
    (toLowerCase value = "" →
      ∀ out ∈ (handleSearch toLowerCase value page).rows,
        out.display = "" ∧ "table-warning" ∉ out.classList) ∧
    handleSearch asciiLower "level3"
        ⟨[{ textContent := "Alice:Level3" }, { textContent := "Bob:Level1" }],
          some ⟨"", "none"⟩⟩ =
      ⟨[{ textContent := "Alice:Level3", display := "", classList := ["table-warning"] },
        { textContent := "Bob:Level1", display := "none", classList := [] }],
        some ⟨"نمایش 1 از 2 نتیجه", "block"⟩⟩ ∧
    handleSearch asciiLower ""
        ⟨[{ textContent := "Alice:Level3", classList := ["table-warning"] },
          { textContent := "Bob:Level1", display := "none" }],
          some ⟨"نمایش 1 از 2 نتیجه", "block"⟩⟩ =
      ⟨[{ textContent := "Alice:Level3", display := "", classList := [] },
        { textContent := "Bob:Level1", display := "", classList := [] }],
        some ⟨"نمایش 1 از 2 نتیجه", "none"⟩⟩ := by
  refine ⟨?_, ?_, ?_, by decide, by decide⟩
  · simp only [handleSearch]
    rw [List.forall₂_map_right_iff]
    apply List.forall₂_same.mpr
    intro row _
    have h := searchRow_spec toLowerCase (toLowerCase value) row
    refine ⟨h.1, h.2.1, ?_⟩
    rw [h.2.2.2, h.2.1]
  · intro el hel
    simp only [handleSearch, updateResultsCount, hel, visible_count, List.length_map]
    split_ifs <;> rfl
  · intro ht out hout
    simp only [handleSearch, List.mem_map] at hout
    obtain ⟨row, _, rfl⟩ := hout
    have h := searchRow_spec toLowerCase (toLowerCase value) row
    have hin : (toLowerCase value).data <:+: (toLowerCase row.textContent).data := by
      rw [ht]; exact List.nil_infix
    refine ⟨by rw [h.2.2.1, if_pos hin], ?_⟩
    rw [h.2.2.2]
    exact fun hc => hc.2 ht

/-! ## `debounce` -/

theorem timerDelay_small (wait : Nat) (hwait : wait ≤ 2147483647) : timerDelay wait = wait := by
  unfold timerDelay
  have h1 : wait % 4294967296 = wait := Nat.mod_eq_of_lt (by omega)
  simp only [h1]
  rw [if_pos (by omega)]

theorem callAt_fresh {α : Type} (wait : Nat) (hwait : wait ≤ 2147483647) (c : Call α) :
    Armed wait c.time c.args (callAt wait ({} : Debounced α) c) := by
  refine ⟨1, ?_, rfl, rfl, rfl⟩
  simp [callAt, fireDue, executedFunction, clearTimeout, timerDelay_small wait hwait]

theorem callAt_armed {α : Type} (wait t : Nat) (hwait : wait ≤ 2147483647) (a : α)
    (c : Call α) (s : Debounced α) (hs : Armed wait t a s)
    (hgap : c.time < t + wait ∨ (c.time = t + wait ∧ c.timerFirst = false)) :
    Armed wait c.time c.args (callAt wait s c) := by
  obtain ⟨now, nextId, timers, timeout, fired⟩ := s
  obtain ⟨i, htm, hto, hf, hnow⟩ := hs
  simp only at htm hto hf hnow
  subst htm hto hf hnow
  have hlt : ¬ now + wait < (if c.timerFirst then c.time + 1 else c.time) := by
    rcases hgap with h | ⟨h, hflag⟩
    · split_ifs <;> omega
    · rw [hflag]; simp only [Bool.false_eq_true, if_false]; omega
  refine ⟨nextId, ?_, ?_, ?_, ?_⟩ <;>
    simp [callAt, fireDue, List.filter_cons, hlt, earliest, executedFunction, clearTimeout,
      timerDelay_small wait hwait]

theorem firedBy_armed {α : Type} (wait t T : Nat) (a : α) (s : Debounced α)
    (hs : Armed wait t a s) :
    firedBy T s = if t + wait ≤ T then [(t + wait, a)] else [] := by
  obtain ⟨i, htm, hto, hf, hnow⟩ := hs
  by_cases h : t + wait ≤ T
  · have hlt : t + wait < T + 1 := Nat.lt_succ_of_le h
    simp [firedBy, htm, fireDue, List.filter_cons, hlt, earliest, later, hf, h]
  · have hlt : ¬ t + wait < T + 1 := fun hc => h (Nat.lt_succ_iff.mp hc)
    simp [firedBy, htm, fireDue, List.filter_cons, hlt, earliest, hf, h]

theorem foldl_callAt_armed {α : Type} (wait : Nat) (hwait : wait ≤ 2147483647)
    (cs : List (Call α)) :
    ∀ (c : Call α) (s : Debounced α), Armed wait c.time c.args s →
      List.Chain (fun x y => x.time ≤ y.time ∧
        (y.time < x.time + wait ∨ (y.time = x.time + wait ∧ y.timerFirst = false))) c cs →
      Armed wait ((c :: cs).getLast (List.cons_ne_nil c cs)).time
        ((c :: cs).getLast (List.cons_ne_nil c cs)).args (cs.foldl (callAt wait) s) := by
  induction cs with
  | nil => intro c s hs _; simpa using hs
  | cons d cs ih =>
    intro c s hs hchain
    rw [List.chain_cons] at hchain
    have hd := callAt_armed wait c.time hwait c.args d s hs hchain.1.2
    have := ih d (callAt wait s d) hd hchain.2
    simpa [List.getLast_cons] using this

/-- C6 (as the claim states it, refuted): with calls at t = 0, 50, 100, 400 and
wait = 300 the last call comes at the instant the timer of the call before it
is due; when the host runs that timer first, `func` runs twice, at t = 400
with the arguments of the call at t = 100 and at t = 700.  And with
wait = 2 ^ 31 the delay `setTimeout` keeps is 0, so two calls 100 ms apart
both run `func`, each at the instant of its own call. -/
theorem debounce_fires_twice_on_tie :
    firedBy 1000 (runCalls 300
      [⟨0, "a", false⟩, ⟨50, "b", false⟩, ⟨100, "c", false⟩, ⟨400, "d", true⟩]) =
        [(400, "c"), (700, "d")] ∧
    firedBy 1000 (runCalls 2147483648 [⟨0, "a", false⟩, ⟨100, "b", false⟩]) =
        [(0, "a"), (100, "b")] := by
  decide

/-- C6 (amended): for a whole `wait` from 0 to 2 ^ 31 - 1, when every call of
the wrapper comes before the timer set by the call before it has run (less
than `wait` after that call, or exactly `wait` after it with the host
handling the call first), `func` has run at most once by any instant `T`: not
at all before `wait` has passed since the last call, and from then on exactly
once, at the last call's instant plus `wait`, with the last call's
arguments. -/
theorem debounce_coalesces {α : Type} (wait : Nat) (c : Call α) (cs : List (Call α))
    (hwait : wait ≤ 2147483647)
    (hgap : List.Chain (fun x y => x.time ≤ y.time ∧
      (y.time < x.time + wait ∨ (y.time = x.time + wait ∧ y.timerFirst = false))) c cs)
    (T : Nat) :
    firedBy T (runCalls wait (c :: cs)) =
      (if ((c :: cs).getLast (List.cons_ne_nil c cs)).time + wait ≤ T then
        [(((c :: cs).getLast (List.cons_ne_nil c cs)).time + wait,
          ((c :: cs).getLast (List.cons_ne_nil c cs)).args)]
      else []) ∧
    (firedBy T (runCalls wait (c :: cs))).length ≤ 1 := by
  have harmed := foldl_callAt_armed wait hwait cs c (callAt wait {} c)
    (callAt_fresh wait hwait c) hgap
  have hrun : runCalls wait (c :: cs) = cs.foldl (callAt wait) (callAt wait {} c) := by
    simp [runCalls]
  have h := firedBy_armed wait _ T _ _ harmed
  rw [← hrun] at h
  refine ⟨h, ?_⟩
  rw [h]
  split_ifs <;> simp

/-- C6 (amended) at two call sequences with wait = 300: calls at t = 0, 50,
100, 399, and calls at t = 0, 50, 100, 400 with the host handling the call at
t = 400 before the timer due then. -/
theorem debounce_coalesces_witness :
    firedBy 698 (runCalls 300
      [⟨0, "a", true⟩, ⟨50, "b", true⟩, ⟨100, "c", true⟩, ⟨399, "d", true⟩]) = [] ∧
    firedBy 5000 (runCalls 300
      [⟨0, "a", true⟩, ⟨50, "b", true⟩, ⟨100, "c", true⟩, ⟨399, "d", true⟩]) =
        [(699, "d")] ∧
    firedBy 699 (runCalls 300
      [⟨0, "a", false⟩, ⟨50, "b", false⟩, ⟨100, "c", false⟩, ⟨400, "d", false⟩]) = [] ∧
    firedBy 700 (runCalls 300
      [⟨0, "a", false⟩, ⟨50, "b", false⟩, ⟨100, "c", false⟩, ⟨400, "d", false⟩]) =
        [(700, "d")] := by
  have h1 : List.Chain (fun x y : Call String => x.time ≤ y.time ∧
      (y.time < x.time + 300 ∨ (y.time = x.time + 300 ∧ y.timerFirst = false)))
      ⟨0, "a", true⟩ [⟨50, "b", true⟩, ⟨100, "c", true⟩, ⟨399, "d", true⟩] := by
    simp
  have h2 : List.Chain (fun x y : Call String => x.time ≤ y.time ∧
      (y.time < x.time + 300 ∨ (y.time = x.time + 300 ∧ y.timerFirst = false)))
      ⟨0, "a", false⟩ [⟨50, "b", false⟩, ⟨100, "c", false⟩, ⟨400, "d", false⟩] := by
    simp
  exact ⟨(debounce_coalesces 300 _ _ (by decide) h1 698).1.trans (by decide),
    (debounce_coalesces 300 _ _ (by decide) h1 5000).1.trans (by decide),
    (debounce_coalesces 300 _ _ (by decide) h2 699).1.trans (by decide),
    (debounce_coalesces 300 _ _ (by decide) h2 700).1.trans (by decide)⟩

/-! ## CSV round trip -/


theorem splitChars_free (sep : Char) (l : List Char) (h : sep ∉ l) :
    splitChars sep l = [l] := by
  induction l with
  | nil => rfl
  | cons c cs ih =>
    have hc : c ≠ sep := fun e => h (by simp [e])
    have hcs : sep ∉ cs := fun e => h (by simp [e])
    simp [splitChars, hc, ih hcs]

theorem splitChars_append (sep : Char) (l rest : List Char) (h : sep ∉ l) :
    splitChars sep (l ++ sep :: rest) = l :: splitChars sep rest := by
  induction l with
  | nil => simp [splitChars]
  | cons c cs ih =>
    have hc : c ≠ sep := fun e => h (by simp [e])
    have hcs : sep ∉ cs := fun e => h (by simp [e])
    simp [splitChars, hc, ih hcs]

theorem splitChars_pieces (sep : Char) (xs : List (List Char)) :
    ∀ x : List Char, sep ∉ x → (∀ y ∈ xs, sep ∉ y) →
      splitChars sep (x ++ xs.flatMap (fun y => sep :: y)) = x :: xs := by
  induction xs with
  | nil => intro x hx _; simpa using splitChars_free sep x hx
  | cons y ys ih =>
    intro x hx hys
    have hy : sep ∉ y := hys y (by simp)
    have hrest : ∀ z ∈ ys, sep ∉ z := fun z hz => hys z (by simp [hz])
    simp only [List.flatMap_cons, List.cons_append]
    rw [splitChars_append sep x _ hx, ih y hy hrest]

theorem split_intercalate (sep : Char) (x : String) (xs : List String)
    (h : ∀ y ∈ x :: xs, sep ∉ y.data) :
    split sep (String.intercalate (String.singleton sep) (x :: xs)) = x :: xs := by
  have hx : sep ∉ x.data := h x (by simp)
  have hxs : ∀ y ∈ xs.map String.data, sep ∉ y := by
    intro y hy
    obtain ⟨z, hz, rfl⟩ := List.mem_map.mp hy
    exact h z (by simp [hz])
  have hdata : (String.intercalate (String.singleton sep) (x :: xs)).data =
      x.data ++ (xs.map String.data).flatMap (fun y => sep :: y) := by
    rw [intercalate_data]
    simp [String.singleton, List.flatMap_map]
  simp only [split, hdata]
  rw [splitChars_pieces sep _ _ hx hxs]
  simp [List.map_map, Function.comp_def]

theorem intercalate_free (c : Char) (sep : String) (l : List String)
    (hsep : c ∉ sep.data) (hl : ∀ y ∈ l, c ∉ y.data) :
    c ∉ (String.intercalate sep l).data := by
  cases l with
  | nil => simp [String.intercalate]
  | cons x xs =>
    rw [intercalate_data]
    simp only [List.mem_append, List.mem_flatMap, not_or, not_exists, not_and]
    exact ⟨hl x (by simp), fun y hy => ⟨hsep, hl y (by simp [hy])⟩⟩

theorem plainValue_field (v : Value) (hv : plainValue v) :
    elementToString (escapeValue v) = elementToString v ∧
    ∀ c ∈ (elementToString v).data, plainChar c := by
  cases v with
  | undefined => exact absurd hv (fun h => h)
  | null => exact absurd hv (fun h => h)
  | str s =>
    have hs : ∀ c ∈ s.data, plainChar c := hv
    refine ⟨?_, hs⟩
    simp [escapeValue, plain_not_includes s hs]
  | num n => exact ⟨rfl, numberToString_plain n⟩
  | native p => exact absurd hv (fun h => h)

theorem zip_stringForm (row : Record) :
    List.zip (keys row) ((row.map (fun kv => elementToString kv.2)).map Value.str) =
      stringForm row := by
  induction row with
  | nil => rfl
  | cons kv tl ih =>
    simp only [keys, stringForm, List.map_cons, List.zip_cons_cons] at ih ⊢
    rw [ih]

theorem intercalate_cons_cons (sep x y : String) (ys : List String) :
    String.intercalate sep (x :: y :: ys) = x ++ sep ++ String.intercalate sep (y :: ys) := by
  apply String.ext
  simp [intercalate_data, String.data_append]

theorem split_intercalate_ne (sep : Char) (l : List String) (hne : l ≠ [])
    (h : ∀ y ∈ l, sep ∉ y.data) :
    split sep (String.intercalate (String.singleton sep) l) = l := by
  cases l with
  | nil => exact absurd rfl hne
  | cons x xs => exact split_intercalate sep x xs h

theorem convertToCSV_cons (first : Record) (rest : List Record) :
    convertToCSV (Data.array (first :: rest)) =
      String.intercalate "\n"
        (String.intercalate "," (keys first) ::
          (first :: rest).map (fun row =>
            String.intercalate ","
              ((keys first).map (fun h => elementToString (escapeValue (getProp row h)))))) := by
  have hrows : (first :: rest).map (csvRow (keys first)) =
      (first :: rest).map (fun row => String.intercalate ","
        ((keys first).map (fun h => elementToString (escapeValue (getProp row h))))) :=
    List.map_congr_left (fun row _ => csvRow_eq (keys first) row)
  simp only [convertToCSV, join_eq_intercalate, hrows]
  simp only [List.map_cons]
  rw [intercalate_cons_cons]

theorem fields_of_row (row : Record) (hnodup : (keys row).Nodup)
    (hvals : ∀ kv ∈ row, plainValue kv.2) :
    (keys row).map (fun h => elementToString (escapeValue (getProp row h))) =
      row.map (fun kv => elementToString kv.2) := by
  rw [show keys row = row.map Prod.fst from rfl, own_fields row hnodup]
  apply List.map_congr_left
  intro kv hkv
  exact (plainValue_field kv.2 (hvals kv hkv)).1

theorem parse_line (names : List String) (row : Record) (hkeys : keys row = names)
    (hne : names ≠ []) (hnodup : names.Nodup) (hvals : ∀ kv ∈ row, plainValue kv.2) :
    List.zip names
        ((split ','
          (String.intercalate ","
            (names.map (fun h => elementToString (escapeValue (getProp row h)))))).map
          Value.str) = stringForm row ∧
    '\n' ∉ (String.intercalate ","
      (names.map (fun h => elementToString (escapeValue (getProp row h))))).data := by
  subst hkeys
  rw [fields_of_row row hnodup hvals]
  have hrow : row.map (fun kv => elementToString kv.2) ≠ [] := by
    intro h
    apply hne
    simp only [List.map_eq_nil_iff] at h
    simp [keys, h]
  have hplain : ∀ y ∈ row.map (fun kv => elementToString kv.2), ∀ c ∈ y.data, plainChar c := by
    intro y hy
    obtain ⟨kv, hkv, rfl⟩ := List.mem_map.mp hy
    exact (plainValue_field kv.2 (hvals kv hkv)).2
  constructor
  · have hsplit := split_intercalate_ne ',' _ hrow
      (fun y hy hc => (hplain y hy _ hc).1 rfl)
    rw [show ("," : String) = String.singleton ',' from rfl, hsplit]
    exact zip_stringForm row
  · exact intercalate_free '\n' "," _ (by decide)
      (fun y hy hc => (hplain y hy _ hc).2.2 rfl)

/-- C2 (as the claim states it, refuted): a record whose field name holds a
comma, with a value free of comma, quote and newline, is not read back. -/
theorem csv_round_trip_fails_on_comma_in_name :
    parseCSV (convertToCSV (Data.array [[("a,b", Value.str "x")]])) =
        [[("a", Value.str "x")]] ∧
    parseCSV (convertToCSV (Data.array [[("a,b", Value.str "x")]])) ≠
        [[("a,b", Value.str "x")]] := by
  decide

/-- C2 (amended): for a dataset whose records all list the same field names
in the same order, with at least one name, no name twice and no comma or
newline in a name, and whose values are numbers or strings free of comma,
double quote and newline, reading the text of `convertToCSV` back gives the
records in order with their fields in order, every value in its string form;
so a dataset of string values comes back unchanged.  The empty dataset comes
back empty. -/
theorem csv_round_trip (first : Record) (rest : List Record)
    (hne : keys first ≠ [])
    (hnodup : (keys first).Nodup)
    (hnames : ∀ k ∈ keys first, ',' ∉ k.data ∧ '\n' ∉ k.data)
    (hshape : ∀ row ∈ rest, keys row = keys first)
    (hvals : ∀ row ∈ first :: rest, ∀ kv ∈ row, plainValue kv.2) :
    parseCSV (convertToCSV (Data.array (first :: rest))) = (first :: rest).map stringForm ∧
    ((∀ row ∈ first :: rest, ∀ kv ∈ row, isString kv.2 = true) →
      parseCSV (convertToCSV (Data.array (first :: rest))) = first :: rest) ∧
    parseCSV (convertToCSV (Data.array [])) = [] := by
  have hshape2 : ∀ row ∈ first :: rest, keys row = keys first := by
    intro row hrow
    rcases List.mem_cons.mp hrow with h | h
    · rw [h]
    · exact hshape row h
  have hline : ∀ row ∈ first :: rest, _ :=
    fun row hrow => parse_line (keys first) row (hshape2 row hrow) hne hnodup (hvals row hrow)
  have hheader : '\n' ∉ (String.intercalate "," (keys first)).data :=
    intercalate_free '\n' "," _ (by decide) (fun k hk => (hnames k hk).2)
  have hmain : parseCSV (convertToCSV (Data.array (first :: rest))) =
      (first :: rest).map stringForm := by
    rw [convertToCSV_cons]
    unfold parseCSV
    rw [show ("\n" : String) = String.singleton '\n' from rfl, split_intercalate]
    · simp only
      rw [show ("," : String) = String.singleton ',' from rfl,
        split_intercalate_ne ',' _ hne (fun k hk => (hnames k hk).1), List.map_map]
      apply List.map_congr_left
      intro row hrow
      exact (hline row hrow).1
    · intro y hy
      rcases List.mem_cons.mp hy with h | h
      · rw [h]; exact hheader
      · obtain ⟨row, hrow, rfl⟩ := List.mem_map.mp h
        exact (hline row hrow).2
  refine ⟨hmain, ?_, by decide⟩
  intro hstr
  rw [hmain]
  conv_rhs => rw [← List.map_id (first :: rest)]
  apply List.map_congr_left
  intro row hrow
  simp only [stringForm, id]
  conv_rhs => rw [← List.map_id row]
  apply List.map_congr_left
  intro kv hkv
  obtain ⟨k, v⟩ := kv
  have := hstr row hrow (k, v) hkv
  cases v <;> simp_all [isString, elementToString]

/-- C2 (amended) at a concrete dataset: two records with a text field and a
number field come back in order, the numbers as their text. -/
theorem csv_round_trip_witness :
    parseCSV (convertToCSV (Data.array
      [[("name", Value.str "Ann"), ("level", Value.num (JSNumber.finite false 3 1))],
       [("name", Value.str "Bob"), ("level", Value.num (JSNumber.finite false 15 1))]])) =
      [[("name", Value.str "Ann"), ("level", Value.str "3")],
       [("name", Value.str "Bob"), ("level", Value.str "1.5")]] :=
  (csv_round_trip
    [("name", Value.str "Ann"), ("level", Value.num (JSNumber.finite false 3 1))]
    [[("name", Value.str "Bob"), ("level", Value.num (JSNumber.finite false 15 1))]]
    (by decide) (by decide) (by decide) (by decide) (by decide)).1

end AdminJS
